import Mathlib

/-!
Shallow embedding of `src-tauri/src/commands.rs` from the DesignLibre
repository, together with theorems settling the specification claims.

Rust `String` values are modelled as `List Char` (the sequence of Unicode
scalar values).  Rust compares and sorts `String`s by their UTF-8 bytes,
and UTF-8 byte order coincides with code-point lexicographic order, so the
lexicographic order on `List Char` is a faithful model of the Rust order.

The standard library / operating-system environment that `commands.rs`
calls into (`std::fs::read_to_string`, `std::fs::write`, `std::fs::read_dir`,
`std::env::var("HOME")`) is modelled by explicit environment structures
(`FileSys`, `FontFS`); the command functions themselves are translated
line by line from the source.
-/

namespace DesignLibre

/-- A Rust `String`, modelled as its list of Unicode scalar values. -/
abbrev Str : Type := List Char

/-- Environment model of `std::fs` as used by the two file commands:
`files p` is the outcome of `std::fs::read_to_string(p)` (`.error e` carries
the OS error description `e`); `writeOk p c` says whether `std::fs::write(p, c)`
succeeds in the current state; `writeErr p c` is the OS error description
when it fails. -/
structure FileSys where
  files : Str → Except Str Str
  writeOk : Str → Str → Bool
  writeErr : Str → Str → Str

/-- The `DesignFile` struct of `commands.rs`. -/
structure DesignFile where
  path : Str
  content : Str
deriving DecidableEq

/-- Translation of `read_design_file`: wrap `fs::read_to_string(&path)`,
mapping an error `e` to `format!("Failed to read file: {}", e)`, and on
success return `DesignFile { path, content }`. -/
def read_design_file (fs : FileSys) (path : Str) : Except Str DesignFile :=
  match fs.files path with
  | .ok content => .ok ⟨path, content⟩
  | .error e => .error ("Failed to read file: ".data ++ e)

/-- Model of `std::fs::write(path, content)`: on success the file at `path`
now reads back as `content` (Rust strings are valid UTF-8, so
`read_to_string` decodes exactly the written text) and no other path
changes; on failure the OS reports `writeErr path content`. -/
def fsWrite (fs : FileSys) (path content : Str) : Except Str FileSys :=
  if fs.writeOk path content then
    .ok ⟨fun p => if p = path then .ok content else fs.files p, fs.writeOk, fs.writeErr⟩
  else
    .error (fs.writeErr path content)

/-- Translation of `write_design_file`: wrap `fs::write(&path, &content)`,
mapping an error `e` to `format!("Failed to write file: {}", e)`, and on
success return `Ok(())`.  The second component is the filesystem state
after the call. -/
def write_design_file (fs : FileSys) (path content : Str) :
    Except Str Unit × FileSys :=
  match fsWrite fs path content with
  | .ok fs' => (.ok (), fs')
  | .error e => (.error ("Failed to write file: ".data ++ e), fs)

/-- C1: a successful `write_design_file(path, content)` followed by
`read_design_file(path)` on the unchanged file succeeds and returns a
`DesignFile` whose `content` is exactly the written content (and whose
`path` is the input path); in particular this holds for empty content. -/
theorem write_then_read_round_trip (fs fs' : FileSys) (path content : Str)
    (h : write_design_file fs path content = (.ok (), fs')) :
    read_design_file fs' path = .ok ⟨path, content⟩ := by
  unfold write_design_file fsWrite at h
  by_cases hw : fs.writeOk path content = true
  · rw [if_pos hw] at h
    have hfs : fs' = ⟨fun p => if p = path then .ok content else fs.files p,
        fs.writeOk, fs.writeErr⟩ := by
      have := congrArg Prod.snd h
      simpa using this.symm
    subst hfs
    simp [read_design_file]
  · rw [if_neg hw] at h
    have := congrArg Prod.fst h
    simp at this

/-- Witness for C1 at a concrete filesystem, path and the empty content. -/
def fsW : FileSys :=
  ⟨fun _ => .error "missing".data, fun _ _ => true, fun _ _ => "err".data⟩

/-- Concrete filesystem state after the witness write. -/
def fsW' : FileSys :=
  ⟨fun q => if q = "p".data then .ok "".data else .error "missing".data,
   fun _ _ => true, fun _ _ => "err".data⟩

/-- Witness for C1: writing the empty string to path `p` on `fsW` succeeds
and reading it back returns exactly the empty content. -/
theorem write_then_read_round_trip_witness :
    read_design_file fsW' "p".data = .ok ⟨"p".data, "".data⟩ :=
  write_then_read_round_trip fsW fsW' "p".data "".data rfl

/-- C5: whenever the underlying read succeeds with content `c`,
`read_design_file` returns `Ok` with the input path echoed verbatim and
the decoded content `c`. -/
theorem read_design_file_ok (fs : FileSys) (path c : Str)
    (h : fs.files path = .ok c) :
    read_design_file fs path = .ok ⟨path, c⟩ := by
  simp [read_design_file, h]

/-- Concrete filesystem for the C5 and C6 witnesses. -/
def fsR : FileSys :=
  ⟨fun p => if p = "ok.txt".data then .ok "hi".data else .error "nope".data,
   fun _ _ => false, fun _ _ => "werr".data⟩

/-- Witness for C5: reading `ok.txt` on `fsR` echoes the path and content. -/
theorem read_design_file_ok_witness :
    read_design_file fsR "ok.txt".data = .ok ⟨"ok.txt".data, "hi".data⟩ :=
  read_design_file_ok fsR "ok.txt".data "hi".data (by simp [fsR])

/-- C6: `read_design_file` fails exactly when the underlying read fails,
and then its error value is exactly the string
`"Failed to read file: "` followed by the underlying cause. -/
theorem read_design_file_error_iff (fs : FileSys) (path : Str) :
    (∀ e, fs.files path = .error e →
      read_design_file fs path = .error ("Failed to read file: ".data ++ e)) ∧
    (∀ msg, read_design_file fs path = .error msg →
      ∃ e, fs.files path = .error e ∧ msg = "Failed to read file: ".data ++ e) := by
  constructor
  · intro e he
    simp [read_design_file, he]
  · intro msg hmsg
    cases hf : fs.files path with
    | ok c => simp [read_design_file, hf] at hmsg
    | error e =>
        refine ⟨e, rfl, ?_⟩
        simp [read_design_file, hf] at hmsg
        exact hmsg.symm

/-- Witness for C6: reading the missing path `gone` on `fsR` fails with the
exact formatted message. -/
theorem read_design_file_error_iff_witness :
    read_design_file fsR "gone".data =
      .error ("Failed to read file: ".data ++ "nope".data) :=
  (read_design_file_error_iff fsR "gone".data).1 "nope".data (by simp [fsR])

/-- C7: `write_design_file` fails exactly when the underlying write fails,
and then its error value is exactly `"Failed to write file: "` followed by
the underlying cause; on success it returns plain `Ok(())`. -/
theorem write_design_file_error_iff (fs : FileSys) (path content : Str) :
    (fs.writeOk path content = true →
      (write_design_file fs path content).1 = .ok ()) ∧
    (fs.writeOk path content = false →
      (write_design_file fs path content).1 =
        .error ("Failed to write file: ".data ++ fs.writeErr path content)) := by
  constructor
  · intro hw
    simp [write_design_file, fsWrite, hw]
  · intro hw
    simp [write_design_file, fsWrite, hw]

/-- Witness for C7: on `fsR` (whose writes always fail) writing to path `p`
fails with the exact formatted message. -/
theorem write_design_file_error_iff_witness :
    (write_design_file fsR "p".data "x".data).1 =
      .error ("Failed to write file: ".data ++ "werr".data) :=
  (write_design_file_error_iff fsR "p".data "x".data).2 (by simp [fsR])

/-- File type of a directory entry, as the OS would report it.
`get_system_fonts` never consults it. -/
inductive FileType
  | file
  | dir
  | symlink
  | other
deriving DecidableEq

/-- A directory entry as yielded by `fs::read_dir` (only the `Ok` entries,
matching `entries.flatten()`): `fileName` is `entry.file_name().to_str()`
(`none` when the name is not valid Unicode), `fileType` is the entry's
kind on disk. -/
structure DirEntry where
  fileName : Option Str
  fileType : FileType
deriving DecidableEq

/-- Environment model of the filesystem as seen by `get_system_fonts`:
`readDir d` is the outcome of `fs::read_dir(d)` (`none` when it fails),
`homeVar` is the outcome of `std::env::var("HOME")`. -/
structure FontFS where
  readDir : Str → Option (List DirEntry)
  homeVar : Option Str

/-- The compile-time `target_os` selecting one of the three `#[cfg]`
blocks of `get_system_fonts`. -/
inductive Platform
  | macos
  | linux
  | windows
deriving DecidableEq

/-- The suffix filter applied on macOS and Windows:
`name.ends_with(".ttf") || name.ends_with(".otf") || name.ends_with(".ttc")`. -/
def isFontFileName (name : Str) : Bool :=
  ".ttf".data.isSuffixOf name || ".otf".data.isSuffixOf name
    || ".ttc".data.isSuffixOf name

/-- One filtered directory scan: the loop body used on macOS and Windows.
A failed `read_dir` contributes nothing (`if let Ok(entries)`); an entry
whose name is not valid Unicode is skipped (`if let Some(name)`); a name
is pushed only when it passes the suffix filter. -/
def scanDirFiltered (fs : FontFS) (d : Str) : List Str :=
  match fs.readDir d with
  | some entries =>
      entries.filterMap fun en =>
        match en.fileName with
        | some name => if isFontFileName name then some name else none
        | none => none
  | none => []

/-- One unfiltered directory scan: the loop body used on Linux.  Every
entry with a Unicode-decodable name is pushed, with no suffix filter. -/
def scanDirUnfiltered (fs : FontFS) (d : Str) : List Str :=
  match fs.readDir d with
  | some entries => entries.filterMap fun en => en.fileName
  | none => []

/-- The `fonts` vector as accumulated by the platform-specific block of
`get_system_fonts`, before sorting and deduplication. -/
def collectFonts (p : Platform) (fs : FontFS) : List Str :=
  match p with
  | .macos =>
      scanDirFiltered fs "/System/Library/Fonts".data
        ++ scanDirFiltered fs "/Library/Fonts".data
        ++ (match fs.homeVar with
            | some home => scanDirFiltered fs (home ++ "/Library/Fonts".data)
            | none => [])
  | .linux =>
      scanDirUnfiltered fs "/usr/share/fonts".data
        ++ scanDirUnfiltered fs "/usr/local/share/fonts".data
  | .windows =>
      scanDirFiltered fs "C:\\Windows\\Fonts".data

/-- Rust `Vec::dedup`: remove consecutive equal elements. -/
def dedupConsec : List Str → List Str
  | [] => []
  | [a] => [a]
  | a :: b :: rest =>
      if a = b then dedupConsec (b :: rest) else a :: dedupConsec (b :: rest)

/-- Translation of `get_system_fonts`: accumulate the platform-specific
scans, then `fonts.sort(); fonts.dedup(); Ok(fonts)`.  Rust's stable sort
on strings is modelled by insertion sort under the lexicographic order,
which produces the same (unique) sorted permutation. -/
def get_system_fonts (p : Platform) (fs : FontFS) : Except Str (List Str) :=
  .ok (dedupConsec (List.insertionSort (· ≤ ·) (collectFonts p fs)))

lemma dedupConsec_sublist : ∀ l : List Str, (dedupConsec l).Sublist l
  | [] => List.Sublist.refl []
  | [a] => List.Sublist.refl [a]
  | a :: b :: rest => by
      rw [dedupConsec]
      by_cases h : a = b
      · rw [if_pos h]
        exact List.Sublist.cons a (dedupConsec_sublist (b :: rest))
      · rw [if_neg h]
        exact List.Sublist.cons₂ a (dedupConsec_sublist (b :: rest))

lemma mem_dedupConsec : ∀ (l : List Str) (a : Str), a ∈ l → a ∈ dedupConsec l
  | [], _, h => by simp at h
  | [_], a, h => by simpa [dedupConsec] using h
  | x :: y :: rest, a, h => by
      rw [dedupConsec]
      by_cases hxy : x = y
      · rw [if_pos hxy]
        rcases List.mem_cons.mp h with h1 | h2
        · exact mem_dedupConsec (y :: rest) a (by simp [h1, hxy])
        · exact mem_dedupConsec (y :: rest) a h2
      · rw [if_neg hxy]
        rcases List.mem_cons.mp h with h1 | h2
        · simp [h1]
        · exact List.mem_cons_of_mem x (mem_dedupConsec (y :: rest) a h2)

lemma dedupConsec_nodup : ∀ l : List Str, l.Sorted (· ≤ ·) → (dedupConsec l).Nodup
  | [], _ => by simp [dedupConsec]
  | [_], _ => by simp [dedupConsec]
  | a :: b :: rest, h => by
      have hab : a ≤ b := (List.sorted_cons.mp h).1 b (by simp)
      have htail : (b :: rest).Sorted (· ≤ ·) := (List.sorted_cons.mp h).2
      rw [dedupConsec]
      by_cases hcase : a = b
      · rw [if_pos hcase]
        exact dedupConsec_nodup (b :: rest) htail
      · rw [if_neg hcase]
        refine List.nodup_cons.mpr ⟨?_, dedupConsec_nodup (b :: rest) htail⟩
        intro hmem
        have hmem' : a ∈ b :: rest := (dedupConsec_sublist (b :: rest)).subset hmem
        have hba : b ≤ a := by
          rcases List.mem_cons.mp hmem' with h1 | h2
          · exact le_of_eq h1.symm
          · exact (List.sorted_cons.mp htail).1 a h2
        exact hcase (le_antisymm hab hba)

lemma mem_get_system_fonts {p : Platform} {fs : FontFS} {l : List Str} {a : Str}
    (h : get_system_fonts p fs = .ok l) : a ∈ l ↔ a ∈ collectFonts p fs := by
  have hl : dedupConsec (List.insertionSort (· ≤ ·) (collectFonts p fs)) = l := by
    simpa [get_system_fonts] using h
  subst hl
  constructor
  · intro hm
    exact (List.mem_insertionSort _).mp ((dedupConsec_sublist _).subset hm)
  · intro hm
    exact mem_dedupConsec _ a ((List.mem_insertionSort _).mpr hm)

lemma mem_scanDirFiltered {fs : FontFS} {d a : Str} (h : a ∈ scanDirFiltered fs d) :
    isFontFileName a = true := by
  unfold scanDirFiltered at h
  cases hrd : fs.readDir d with
  | none => rw [hrd] at h; simp at h
  | some es =>
      rw [hrd] at h
      rcases List.mem_filterMap.mp h with ⟨en, _, hen⟩
      cases hfn : en.fileName with
      | none => rw [hfn] at hen; simp at hen
      | some name =>
          rw [hfn] at hen
          by_cases hf : isFontFileName name = true
          · simp [hf] at hen
            exact hen ▸ hf
          · simp [hf] at hen

lemma mem_scanDirUnfiltered {fs : FontFS} {d : Str} {es : List DirEntry}
    {en : DirEntry} {name : Str} (hrd : fs.readDir d = some es) (hen : en ∈ es)
    (hfn : en.fileName = some name) : name ∈ scanDirUnfiltered fs d := by
  unfold scanDirUnfiltered
  rw [hrd]
  exact List.mem_filterMap.mpr ⟨en, hen, hfn⟩

lemma mem_linux_fonts {fs : FontFS} {l : List Str} {d : Str} {es : List DirEntry}
    {en : DirEntry} {name : Str}
    (hd : d = "/usr/share/fonts".data ∨ d = "/usr/local/share/fonts".data)
    (hrd : fs.readDir d = some es) (hen : en ∈ es) (hfn : en.fileName = some name)
    (h : get_system_fonts .linux fs = .ok l) : name ∈ l := by
  refine (mem_get_system_fonts h).mpr ?_
  unfold collectFonts
  rcases hd with hd | hd <;> subst hd
  · exact List.mem_append_left _ (mem_scanDirUnfiltered hrd hen hfn)
  · exact List.mem_append_right _ (mem_scanDirUnfiltered hrd hen hfn)

/-- C2: `get_system_fonts` never returns an error: on every platform and
filesystem state it returns `Ok` with some list; when no scanned
directory is readable at all the result is `Ok` with the empty list; and
a failing directory is silently skipped while enumeration continues with
the remaining directories (shown for the Linux branch: when the first
directory fails, the result is exactly the post-processed scan of the
second). -/
theorem get_system_fonts_never_errors :
    (∀ (p : Platform) (fs : FontFS), ∃ l, get_system_fonts p fs = .ok l) ∧
    (∀ (p : Platform) (hv : Option Str),
      get_system_fonts p ⟨fun _ => none, hv⟩ = .ok []) ∧
    (∀ fs : FontFS, fs.readDir "/usr/share/fonts".data = none →
      get_system_fonts .linux fs =
        .ok (dedupConsec (List.insertionSort (· ≤ ·)
          (scanDirUnfiltered fs "/usr/local/share/fonts".data)))) := by
  refine ⟨fun p fs => ⟨_, rfl⟩, fun p hv => ?_, fun fs h => ?_⟩
  · cases p <;> cases hv <;> rfl
  · unfold get_system_fonts collectFonts
    rw [show scanDirUnfiltered fs "/usr/share/fonts".data = [] by
      unfold scanDirUnfiltered; rw [h]]
    rw [List.nil_append]

/-- Concrete filesystem for the C2 witness: the first Linux directory is
unreadable, the second holds one entry. -/
def fsSkip : FontFS :=
  ⟨fun d => if d = "/usr/local/share/fonts".data
      then some [⟨some "x.bin".data, .file⟩] else none, none⟩

/-- Witness for C2: on `fsSkip` the failing first directory is skipped and
enumeration continues with the second. -/
theorem get_system_fonts_never_errors_witness :
    get_system_fonts .linux fsSkip =
      .ok (dedupConsec (List.insertionSort (· ≤ ·)
        (scanDirUnfiltered fsSkip "/usr/local/share/fonts".data))) :=
  get_system_fonts_never_errors.2.2 fsSkip (by decide)

/-- C3: every list returned by a successful `get_system_fonts` call is
sorted ascending lexicographically and contains no duplicates. -/
theorem get_system_fonts_sorted_nodup (p : Platform) (fs : FontFS) (l : List Str)
    (h : get_system_fonts p fs = .ok l) :
    l.Sorted (· ≤ ·) ∧ l.Nodup := by
  have hl : dedupConsec (List.insertionSort (· ≤ ·) (collectFonts p fs)) = l := by
    simpa [get_system_fonts] using h
  subst hl
  have hs : (List.insertionSort (· ≤ ·) (collectFonts p fs)).Sorted (· ≤ ·) :=
    List.sorted_insertionSort _ _
  exact ⟨List.Pairwise.sublist (dedupConsec_sublist _) hs,
    dedupConsec_nodup _ hs⟩

/-- Filesystem in which every directory read fails. -/
def fsEmpty : FontFS := ⟨fun _ => none, none⟩

/-- Witness for C3 at the all-failing filesystem, whose result is `[]`. -/
theorem get_system_fonts_sorted_nodup_witness :
    ([] : List Str).Sorted (· ≤ ·) ∧ ([] : List Str).Nodup :=
  get_system_fonts_sorted_nodup .linux fsEmpty [] rfl

/-- Concrete Windows filesystem for C4: the scanned directory yields
`b.ttf`, `a.otf`, `a.otf` (duplicate), `c.txt`. -/
def fsC4win : FontFS :=
  ⟨fun d => if d = "C:\\Windows\\Fonts".data
      then some [⟨some "b.ttf".data, .file⟩, ⟨some "a.otf".data, .file⟩,
                 ⟨some "a.otf".data, .file⟩, ⟨some "c.txt".data, .file⟩]
      else none, none⟩

/-- Concrete macOS filesystem for C4 with the same four entries in its
first scanned directory. -/
def fsC4mac : FontFS :=
  ⟨fun d => if d = "/System/Library/Fonts".data
      then some [⟨some "b.ttf".data, .file⟩, ⟨some "a.otf".data, .file⟩,
                 ⟨some "a.otf".data, .file⟩, ⟨some "c.txt".data, .file⟩]
      else none, none⟩

/-- C4: on a filtered platform, directory entries `b.ttf`, `a.otf`,
`a.otf`, `c.txt` produce exactly `["a.otf", "b.ttf"]`: non-font suffixes
excluded, duplicates removed, result sorted (shown on both filtered
platforms). -/
theorem get_system_fonts_filtered_example :
    get_system_fonts .windows fsC4win = .ok ["a.otf".data, "b.ttf".data] ∧
    get_system_fonts .macos fsC4mac = .ok ["a.otf".data, "b.ttf".data] :=
  ⟨rfl, rfl⟩

/-- C8: on Linux, the filename of every Unicode-decodable entry of either
of the two scanned system font directories appears in the result,
regardless of its extension — no suffix filtering on this platform. -/
theorem linux_no_suffix_filtering (fs : FontFS) (l : List Str) (d : Str)
    (es : List DirEntry) (en : DirEntry) (name : Str)
    (hd : d = "/usr/share/fonts".data ∨ d = "/usr/local/share/fonts".data)
    (hrd : fs.readDir d = some es) (hen : en ∈ es)
    (hfn : en.fileName = some name)
    (h : get_system_fonts .linux fs = .ok l) : name ∈ l :=
  mem_linux_fonts hd hrd hen hfn h

/-- Concrete Linux filesystem for the C8 witness: one entry whose name is
not a font suffix at all. -/
def fsLin : FontFS :=
  ⟨fun d => if d = "/usr/share/fonts".data
      then some [⟨some "notafont.txt".data, .file⟩] else none, none⟩

/-- Witness for C8: the `.txt` entry of `fsLin` is included on Linux. -/
theorem linux_no_suffix_filtering_witness :
    "notafont.txt".data ∈ (["notafont.txt".data] : List Str) :=
  linux_no_suffix_filtering fsLin ["notafont.txt".data] "/usr/share/fonts".data
    [⟨some "notafont.txt".data, .file⟩] ⟨some "notafont.txt".data, .file⟩
    "notafont.txt".data (Or.inl rfl) (by decide) (by decide) rfl rfl

/-- C9: on the filtered platforms (macOS, Windows) every returned name
passes the case-sensitive suffix test, and upper- or mixed-case variants
of the recognized suffixes fail that test, hence are excluded. -/
theorem filtered_platforms_case_sensitive :
    (∀ (p : Platform) (fs : FontFS) (l : List Str) (name : Str),
      p ≠ .linux → get_system_fonts p fs = .ok l → name ∈ l →
      isFontFileName name = true) ∧
    isFontFileName "ARIAL.TTF".data = false ∧
    isFontFileName "Foo.Otf".data = false := by
  refine ⟨?_, by decide, by decide⟩
  intro p fs l name hp h hm
  have hc := (mem_get_system_fonts h).mp hm
  cases p with
  | linux => exact absurd rfl hp
  | macos =>
      unfold collectFonts at hc
      rcases List.mem_append.mp hc with hc2 | hc3
      · rcases List.mem_append.mp hc2 with hc4 | hc5
        · exact mem_scanDirFiltered hc4
        · exact mem_scanDirFiltered hc5
      · cases hv : fs.homeVar with
        | some home => rw [hv] at hc3; exact mem_scanDirFiltered hc3
        | none => rw [hv] at hc3; simp at hc3
  | windows => exact mem_scanDirFiltered (by simpa [collectFonts] using hc)

/-- Concrete Windows filesystem for the C9 witness. -/
def fsWin : FontFS :=
  ⟨fun d => if d = "C:\\Windows\\Fonts".data
      then some [⟨some "a.ttf".data, .file⟩] else none, none⟩

/-- Witness for C9: the returned entry `a.ttf` of `fsWin` passes the
suffix test. -/
theorem filtered_platforms_case_sensitive_witness :
    isFontFileName "a.ttf".data = true :=
  filtered_platforms_case_sensitive.1 .windows fsWin ["a.ttf".data]
    "a.ttf".data (by decide) rfl (by decide)

lemma scanDirFiltered_some {fs : FontFS} {d : Str} {es : List DirEntry}
    (h : fs.readDir d = some es) :
    scanDirFiltered fs d
      = es.filterMap fun en =>
          match en.fileName with
          | some name => if isFontFileName name then some name else none
          | none => none := by
  unfold scanDirFiltered
  rw [h]

lemma scanDirUnfiltered_some {fs : FontFS} {d : Str} {es : List DirEntry}
    (h : fs.readDir d = some es) :
    scanDirUnfiltered fs d = es.filterMap fun en => en.fileName := by
  unfold scanDirUnfiltered
  rw [h]

lemma scanDirFiltered_congr {fs₁ fs₂ : FontFS} {d : Str}
    (h : (fs₁.readDir d).map (List.map DirEntry.fileName)
       = (fs₂.readDir d).map (List.map DirEntry.fileName)) :
    scanDirFiltered fs₁ d = scanDirFiltered fs₂ d := by
  have key : ∀ es : List DirEntry,
      (es.filterMap fun en =>
        match en.fileName with
        | some name => if isFontFileName name then some name else none
        | none => none)
      = ((es.map DirEntry.fileName).filterMap fun o =>
        match o with
        | some name => if isFontFileName name then some name else none
        | none => none) := by
    intro es
    rw [List.filterMap_map]
    rfl
  cases h1 : fs₁.readDir d with
  | none =>
      cases h2 : fs₂.readDir d with
      | none => unfold scanDirFiltered; rw [h1, h2]
      | some es₂ => rw [h1, h2] at h; simp at h
  | some es₁ =>
      cases h2 : fs₂.readDir d with
      | none => rw [h1, h2] at h; simp at h
      | some es₂ =>
          rw [h1, h2] at h
          have h' : es₁.map DirEntry.fileName = es₂.map DirEntry.fileName := by
            simpa using h
          rw [scanDirFiltered_some h1, scanDirFiltered_some h2,
            key es₁, key es₂, h']

lemma scanDirUnfiltered_congr {fs₁ fs₂ : FontFS} {d : Str}
    (h : (fs₁.readDir d).map (List.map DirEntry.fileName)
       = (fs₂.readDir d).map (List.map DirEntry.fileName)) :
    scanDirUnfiltered fs₁ d = scanDirUnfiltered fs₂ d := by
  have key : ∀ es : List DirEntry,
      (es.filterMap fun en => en.fileName)
      = ((es.map DirEntry.fileName).filterMap fun o => o) := by
    intro es
    rw [List.filterMap_map]
    rfl
  cases h1 : fs₁.readDir d with
  | none =>
      cases h2 : fs₂.readDir d with
      | none => unfold scanDirUnfiltered; rw [h1, h2]
      | some es₂ => rw [h1, h2] at h; simp at h
  | some es₁ =>
      cases h2 : fs₂.readDir d with
      | none => rw [h1, h2] at h; simp at h
      | some es₂ =>
          rw [h1, h2] at h
          have h' : es₁.map DirEntry.fileName = es₂.map DirEntry.fileName := by
            simpa using h
          rw [scanDirUnfiltered_some h1, scanDirUnfiltered_some h2,
            key es₁, key es₂, h']

/-- C10: `get_system_fonts` inspects only entry filenames, never file
types: two filesystems with the same names (and home variable) yield
identical results even if the entries' file types differ everywhere; in
particular on Linux a subdirectory entry whose name decodes is included
in the returned list. -/
theorem fonts_ignore_file_type :
    (∀ (p : Platform) (fs₁ fs₂ : FontFS),
      (∀ d, (fs₁.readDir d).map (List.map DirEntry.fileName)
          = (fs₂.readDir d).map (List.map DirEntry.fileName)) →
      fs₁.homeVar = fs₂.homeVar →
      get_system_fonts p fs₁ = get_system_fonts p fs₂) ∧
    (∀ (fs : FontFS) (l : List Str) (d : Str) (es : List DirEntry)
        (en : DirEntry) (name : Str),
      (d = "/usr/share/fonts".data ∨ d = "/usr/local/share/fonts".data) →
      fs.readDir d = some es → en ∈ es → en.fileName = some name →
      en.fileType = FileType.dir →
      get_system_fonts .linux fs = .ok l → name ∈ l) := by
  constructor
  · intro p fs₁ fs₂ hrd hhome
    unfold get_system_fonts
    have e1 : scanDirFiltered fs₁ = scanDirFiltered fs₂ :=
      funext fun d => scanDirFiltered_congr (hrd d)
    have e2 : scanDirUnfiltered fs₁ = scanDirUnfiltered fs₂ :=
      funext fun d => scanDirUnfiltered_congr (hrd d)
    have hcoll : collectFonts p fs₁ = collectFonts p fs₂ := by
      unfold collectFonts
      simp only [e1, e2, hhome]
    rw [hcoll]
  · intro fs l d es en name hd hrd hen hfn _hft h
    exact mem_linux_fonts hd hrd hen hfn h

/-- Concrete Linux filesystem for the C10 witness: a single entry that is
a subdirectory. -/
def fsLinDir : FontFS :=
  ⟨fun d => if d = "/usr/share/fonts".data
      then some [⟨some "subdir".data, .dir⟩] else none, none⟩

/-- Witness for C10: the subdirectory entry of `fsLinDir` appears in the
returned list. -/
theorem fonts_ignore_file_type_witness :
    "subdir".data ∈ (["subdir".data] : List Str) :=
  fonts_ignore_file_type.2 fsLinDir ["subdir".data] "/usr/share/fonts".data
    [⟨some "subdir".data, .dir⟩] ⟨some "subdir".data, .dir⟩ "subdir".data
    (Or.inl rfl) (by decide) (by decide) rfl rfl rfl

end DesignLibre
